import Mathlib

/-!
Verification of the WebAPI crawler analyzer
(`src/skills/webapi_crawler_analyzer/scripts/webapi_analyzer.py`).

The Python source is shallowly embedded below.  Text is `List Char`
(Python `str`), Python `float` scores are modelled as exact rationals
(the score arithmetic of this program — one division of small naturals,
one addition of 0.2, `min` — is exact in IEEE double for the properties
stated here), Python exceptions are `Option`/`Except`, and the two
external collaborators (the Playwright capture collector and the
BeautifulSoup fallback-selector generator) are passed in as function
parameters, as the specification treats them as external collaborators.
Python's `re` patterns are embedded as explicit backtracking scanners
over character lists with the exact greedy/lazy semantics of the source
patterns.  Character-level operations (`str.lower`, `\w`, `\s`, `\d`)
are modelled on their ASCII behaviour, which is all this program relies
on.
-/

/-- Python `str` is modelled as a list of characters. -/
abbrev Str := List Char

/-- Python `str.lower()` (ASCII behaviour, which `Char.toLower` implements). -/
def lowerStr (s : Str) : Str := s.map Char.toLower

/-- Python regex `\s` / `str.strip()` whitespace, ASCII part:
space, tab, newline, vertical tab, form feed, carriage return. -/
def isPyWs (c : Char) : Bool :=
  c = ' ' || c = '\t' || c = '\n' || c = '\x0b' || c = '\x0c' || c = '\r'

/-- Python regex `\w` (ASCII part): letters, digits and underscore. -/
def isWordChar (c : Char) : Bool := c.isAlphanum || c = '_'

/-- Python regex `\d` (ASCII part): decimal digits. -/
def isPyDigit (c : Char) : Bool := c.isDigit

/-- Does `h` start with `n`?  (Python `str.startswith`.) -/
def strStartsWith : Str → Str → Bool
  | _, [] => true
  | [], _ :: _ => false
  | c :: cs, d :: ds => c = d && strStartsWith cs ds

/-- Does `h` end with `n`?  (Python `str.endswith`.) -/
def strEndsWith (h n : Str) : Bool := strStartsWith h.reverse n.reverse

/-- Python substring containment `n in h`. -/
def strContains : Str → Str → Bool
  | [], n => strStartsWith [] n
  | c :: cs, n => strStartsWith (c :: cs) n || strContains cs n

/-- Python `str.strip()` (strip ASCII whitespace from both ends). -/
def pyStrip (s : Str) : Str :=
  ((s.dropWhile isPyWs).reverse.dropWhile isPyWs).reverse

/-- Python slice `s[a:-b]` for `a`,`b ≥ 0`: drop `a` from the front and
`b` from the back. -/
def pySliceDrop (a b : Nat) (s : Str) : Str :=
  (s.drop a).take (s.length - a - b)

/-- Decimal rendering of a natural number (Python `str(n)` / f-string). -/
def natToStr (n : Nat) : Str := (Nat.repr n).toList

/-- Decimal rendering of an integer (Python `str(i)` / f-string). -/
def intToStr : Int → Str
  | Int.ofNat n => natToStr n
  | Int.negSucc n => '-' :: natToStr (n + 1)

/-! ## `_extract_keywords`

Python: `re.findall(r'\b\w+\b', data_description.lower())` filtered to
words of length > 2.  `\b\w+\b` with a greedy `\w+` returns exactly the
maximal runs of word characters, which is how it is embedded here
(fuel-based recursion; the fuel `|s| + 1` is enough because every step
consumes at least one character). -/

def wordRunsAux : Nat → Str → List Str
  | 0, _ => []
  | _ + 1, [] => []
  | fuel + 1, c :: cs =>
    if isWordChar c then
      (c :: cs.takeWhile isWordChar) :: wordRunsAux fuel (cs.dropWhile isWordChar)
    else
      wordRunsAux fuel cs

/-- Maximal runs of `\w` characters: the matches of `re.findall(r'\b\w+\b', s)`. -/
def wordRuns (s : Str) : List Str := wordRunsAux (s.length + 1) s

/-- Embeds `_extract_keywords`: word tokens of the lower-cased description,
keeping only those of length > 2. -/
def extract_keywords (data_description : Str) : List Str :=
  (wordRuns (lowerStr data_description)).filter (fun kw => decide (kw.length > 2))

/-! ## `_extract_url_from_instructions`

Python: `re.findall(r'https?://[^\s\'"<>]+', instructions)`, first match,
`ValueError` (here: `none`) when there is no match. -/

/-- Character class `[^\s\'"<>]` of the URL regex. -/
def isUrlChar (c : Char) : Bool :=
  !(isPyWs c || c = '\x27' || c = '\x22' || c = '<' || c = '>')

/-- Consume the literal `lit` from the front of `s`. -/
def eatLit : Str → Str → Option Str
  | [], s => some s
  | _ :: _, [] => none
  | c :: cs, d :: ds => if d = c then eatLit cs ds else none

/-- Consume the literal `lit` case-insensitively (for `re.IGNORECASE`
patterns; `lit` is given in lower case). -/
def eatLitCI : Str → Str → Option Str
  | [], s => some s
  | _ :: _, [] => none
  | c :: cs, d :: ds => if d.toLower = c then eatLitCI cs ds else none

/-- Consume one character of the class `p`. -/
def eatClass (p : Char → Bool) : Str → Option Str
  | [] => none
  | c :: cs => if p c then some cs else none

/-- Match `https?://[^\s\'"<>]+` at the head of `s`, returning the whole
match.  The optional `s?` is tried greedily first, as the regex engine
does. -/
def matchUrlAt (s : Str) : Option Str :=
  (eatLit "http".toList s).bind fun s1 =>
    let tailRun : Str → Option Str := fun t =>
      (eatLit "://".toList t).bind fun t1 =>
        let run := t1.takeWhile isUrlChar
        if run.isEmpty then none else some run
    match s1 with
    | 's' :: s2 =>
      match tailRun s2 with
      | some run => some ("https://".toList ++ run)
      | none => (tailRun s1).map (fun run => "http://".toList ++ run)
    | _ => (tailRun s1).map (fun run => "http://".toList ++ run)

/-- First (leftmost) match of the URL regex in `s`. -/
def firstUrlMatch : Str → Option Str
  | [] => none
  | c :: t =>
    match matchUrlAt (c :: t) with
    | some m => some m
    | none => firstUrlMatch t

/-- Embeds `_extract_url_from_instructions`: the first URL in the
instructions, or `none` where the Python raises `ValueError`. -/
def extract_url_from_instructions (instructions : Str) : Option Str :=
  firstUrlMatch instructions

/-! ## `_calculate_match_score` -/

/-- Embeds `_calculate_match_score`.  Keywords matching the lower-cased
content as (lower-cased) substrings are collected in keyword order; the
score is `min(len(matched)/max(len(keywords),1), 1.0)`, plus a `0.2`
bonus capped at `1.0` when the content contains both a `\x7b` and a
`\x7d` character.  The unused `data_description` parameter of the source
is kept. -/
def calculate_match_score (content : Str) (keywords : List Str)
    (_data_description : Str) : List Str × ℚ :=
  let content_lower := lowerStr content
  let matched_keywords :=
    keywords.foldl
      (fun acc kw => if strContains content_lower (lowerStr kw) then acc ++ [kw] else acc) []
  let score : ℚ := min ((matched_keywords.length : ℚ) / ((max keywords.length 1 : ℕ) : ℚ)) 1
  let score : ℚ :=
    if '\x7b' ∈ content ∧ '\x7d' ∈ content then min (score + 0.2) 1 else score
  (matched_keywords, score)

/-- Stated from the spec's words, for comparison with the source's
`_calculate_match_score`: base score = (count of matched terms) /
max(|K|, 1) clamped to [0,1]; +0.2 bonus when the surface has both brace
characters, clamped to 1.0 again. -/
def specMatchScore (content : Str) (keywords : List Str) : ℚ :=
  let count : ℚ :=
    ((keywords.filter (fun kw => strContains (lowerStr content) (lowerStr kw))).length : ℚ)
  let base : ℚ := max 0 (min (count / ((max keywords.length 1 : ℕ) : ℚ)) 1)
  if '\x7b' ∈ content ∧ '\x7d' ∈ content then min (base + 0.2) 1 else base

/-- Stated from the spec's words: keyword `kw` has a case-insensitive
substring match in surface `content`. -/
def specKeywordMatches (kw content : Str) : Prop :=
  ∃ u v, lowerStr content = u ++ lowerStr kw ++ v

/-! ## `_is_pagination_request`

Python: four `re.search` calls with `re.IGNORECASE`:
`[?&]page=\d+`, `[?&]p=\d+`, `/page/\d+`, `/\d+/page`.
Each pattern is embedded as a scanner over the lower-cased URL (the
patterns' letters are lower case, so `re.IGNORECASE` matching equals
matching on the lower-cased string for ASCII input). -/

/-- Does `lit` followed by at least one digit match at the head of `s`?
(The trailing `\d+` of a pattern needs only its first digit for a
search.) -/
def litThenDigitAt (lit : Str) (s : Str) : Bool :=
  match eatLit lit s with
  | some (d :: _) => isPyDigit d
  | _ => false

/-- Match `[?&]page=\d+` at the head of `s`. -/
def pagPat1At : Str → Bool
  | c :: rest => (c = '?' || c = '&') && litThenDigitAt "page=".toList rest
  | [] => false

/-- Match `[?&]p=\d+` at the head of `s`. -/
def pagPat2At : Str → Bool
  | c :: rest => (c = '?' || c = '&') && litThenDigitAt "p=".toList rest
  | [] => false

/-- Match `/page/\d+` at the head of `s`. -/
def pagPat3At (s : Str) : Bool := litThenDigitAt "/page/".toList s

/-- Match `/\d+/page` at the head of `s`.  The greedy `\d+` takes the
maximal digit run; a shorter run cannot succeed because the following
literal starts with the non-digit `/`. -/
def pagPat4At : Str → Bool
  | c :: rest =>
    c = '/' && !(rest.takeWhile isPyDigit).isEmpty &&
      strStartsWith (rest.dropWhile isPyDigit) "/page".toList
  | [] => false

/-- `re.search`: does `m` match at some position of `s`? -/
def searchPattern (m : Str → Bool) : Str → Bool
  | [] => m []
  | c :: t => m (c :: t) || searchPattern m t

/-- Embeds `_is_pagination_request`: any of the four pagination patterns
matches somewhere in the URL, case-insensitively. -/
def is_pagination_request (url : Str) : Bool :=
  let u := lowerStr url
  searchPattern pagPat1At u || searchPattern pagPat2At u ||
    searchPattern pagPat3At u || searchPattern pagPat4At u

/-- Stated from the spec's words: the URL (lower-cased) decomposes around
a `page=<digit…>` query parameter introduced by `?` or `&`. -/
def specPagQueryParam (key : Str) (url : Str) : Prop :=
  ∃ a c d b, lowerStr url = a ++ c :: (key ++ '=' :: d :: b) ∧
    (c = '?' ∨ c = '&') ∧ isPyDigit d = true

/-- Stated from the spec's words: the URL (lower-cased) contains a
`/page/<digit…>` segment. -/
def specPagPathPage (url : Str) : Prop :=
  ∃ a d b, lowerStr url = a ++ "/page/".toList ++ d :: b ∧ isPyDigit d = true

/-- Stated from the spec's words: the URL (lower-cased) contains a
`/<digits>/page` segment. -/
def specPagNumPage (url : Str) : Prop :=
  ∃ a ds b, lowerStr url = a ++ '/' :: (ds ++ "/page".toList ++ b) ∧
    ds ≠ [] ∧ ∀ c ∈ ds, isPyDigit c = true

/-- Stated from the spec's words: the four-way pagination classification. -/
def specPagination (url : Str) : Prop :=
  specPagQueryParam "page".toList url ∨ specPagQueryParam "p".toList url ∨
    specPagPathPage url ∨ specPagNumPage url

/-! ## JSON (Python stdlib `json`)

`json.loads` and `json.dumps(..., indent=2)` are Python standard-library
collaborators; they are embedded here as a strict recursive-descent
parser and an indenting serializer over the value type `Json`.  Numbers
are modelled as exact rationals (`json.loads` produces `int`/`float`;
the float literals `NaN`/`Infinity` accepted by Python and the rounding
of decimal literals to binary doubles are outside this model — no claim
depends on numeric values).  Object keys follow `dict` semantics: a
duplicate key overwrites the value in place. -/

inductive Json where
  | null : Json
  | bool : Bool → Json
  | num : ℚ → Json
  | str : Str → Json
  | arr : List Json → Json
  | obj : List (Str × Json) → Json

/-- JSON whitespace accepted between tokens by `json.loads`. -/
def isJsonWs (c : Char) : Bool := c = ' ' || c = '\t' || c = '\n' || c = '\r'

/-- Skip JSON whitespace. -/
def skipJsonWs (s : Str) : Str := s.dropWhile isJsonWs

/-- `dict` insertion: overwrite an existing key in place, else append. -/
def dictInsert (kvs : List (Str × Json)) (k : Str) (v : Json) : List (Str × Json) :=
  match kvs with
  | [] => [(k, v)]
  | (k1, v1) :: rest => if k1 = k then (k1, v) :: rest else (k1, v1) :: dictInsert rest k v

/-- Value of a hexadecimal digit, if it is one. -/
def hexDigitVal (c : Char) : Option Nat :=
  if c.isDigit then some (c.toNat - '0'.toNat)
  else if 'a' ≤ c ∧ c ≤ 'f' then some (c.toNat - 'a'.toNat + 10)
  else if 'A' ≤ c ∧ c ≤ 'F' then some (c.toNat - 'A'.toNat + 10)
  else none

/-- One-character JSON string escapes. -/
def jsonEscChar (c : Char) : Option Char :=
  if c = '\x22' then some '\x22'
  else if c = '\\' then some '\\'
  else if c = '/' then some '/'
  else if c = 'b' then some '\x08'
  else if c = 'f' then some '\x0c'
  else if c = 'n' then some '\n'
  else if c = 'r' then some '\r'
  else if c = 't' then some '\t'
  else none

/-- Parse `\uXXXX` (after the `u`): four hex digits. -/
def parseHex4 : Str → Option (Nat × Str)
  | a :: b :: c :: d :: rest =>
    (hexDigitVal a).bind fun va =>
    (hexDigitVal b).bind fun vb =>
    (hexDigitVal c).bind fun vc =>
    (hexDigitVal d).map fun vd => (((va * 16 + vb) * 16 + vc) * 16 + vd, rest)
  | _ => none

/-- Body of a JSON string after the opening quote, up to and including the
closing quote (fuel-based recursion, every step consumes input).
Surrogate pairs in `\u` escapes are combined; a lone surrogate (which
Python keeps as a lone surrogate code unit, something a Lean `Char`
cannot hold) degrades to `Char.ofNat`'s default. -/
def parseJsonStringBodyAux : Nat → Str → Option (Str × Str)
  | 0, _ => none
  | _ + 1, [] => none
  | fuel + 1, c :: cs =>
    if c = '\x22' then some ([], cs)
    else if c = '\\' then
      match cs with
      | [] => none
      | e :: cs2 =>
        if e = 'u' then
          match parseHex4 cs2 with
          | none => none
          | some (n, cs3) =>
            if 0xd800 ≤ n ∧ n ≤ 0xdbff then
              match cs3 with
              | '\\' :: 'u' :: cs4 =>
                match parseHex4 cs4 with
                | some (m, cs5) =>
                  if 0xdc00 ≤ m ∧ m ≤ 0xdfff then
                    (parseJsonStringBodyAux fuel cs5).map fun pr =>
                      (Char.ofNat (0x10000 + (n - 0xd800) * 0x400 + (m - 0xdc00)) :: pr.1, pr.2)
                  else
                    (parseJsonStringBodyAux fuel cs3).map fun pr => (Char.ofNat n :: pr.1, pr.2)
                | none => (parseJsonStringBodyAux fuel cs3).map fun pr => (Char.ofNat n :: pr.1, pr.2)
              | _ => (parseJsonStringBodyAux fuel cs3).map fun pr => (Char.ofNat n :: pr.1, pr.2)
            else
              (parseJsonStringBodyAux fuel cs3).map fun pr => (Char.ofNat n :: pr.1, pr.2)
        else
          match jsonEscChar e with
          | none => none
          | some ch => (parseJsonStringBodyAux fuel cs2).map fun pr => (ch :: pr.1, pr.2)
    else if c.toNat < 0x20 then none
    else (parseJsonStringBodyAux fuel cs).map fun pr => (c :: pr.1, pr.2)

/-- Body of a JSON string after the opening quote. -/
def parseJsonStringBody (s : Str) : Option (Str × Str) :=
  parseJsonStringBodyAux (s.length + 1) s

/-- Natural-number value of a run of decimal digits. -/
def digitsToNat (ds : Str) : Nat :=
  ds.foldl (fun acc c => acc * 10 + (c.toNat - '0'.toNat)) 0

/-- Parse a JSON number `-?(0|[1-9]\d*)(\.\d+)?([eE][-+]?\d+)?` at the head
of `s` (the grammar of Python's `json` number scanner; a bare trailing
`.` or `e` is not consumed). -/
def parseJsonNumber (s : Str) : Option (Json × Str) :=
  let (neg, s1) := match s with
    | '-' :: t => (true, t)
    | t => (false, t)
  let intRun := s1.takeWhile isPyDigit
  match intRun with
  | [] => none
  | d0 :: drest =>
    -- leading-zero rule: `0` stands alone, otherwise no leading zero
    let intPart : Str := if d0 = '0' then [d0] else d0 :: drest
    let s2 := s1.drop intPart.length
    let (fracDigits, s3) :=
      match s2 with
      | '.' :: t =>
        let run := t.takeWhile isPyDigit
        if run.isEmpty then (([] : Str), s2) else (run, t.drop run.length)
      | _ => ([], s2)
    let (expVal, s4) :=
      match s3 with
      | e :: t =>
        if e = 'e' ∨ e = 'E' then
          let (esign, t1) := match t with
            | '+' :: t2 => ((1 : Int), t2)
            | '-' :: t2 => ((-1 : Int), t2)
            | t2 => ((1 : Int), t2)
          let run := t1.takeWhile isPyDigit
          if run.isEmpty then ((0 : Int), s3)
          else (esign * (digitsToNat run : Int), t1.drop run.length)
        else ((0 : Int), s3)
      | [] => ((0 : Int), s3)
    let mantissa : ℚ :=
      (digitsToNat intPart : ℚ) + (digitsToNat fracDigits : ℚ) / ((10 : ℚ) ^ fracDigits.length)
    let magnitude : ℚ := mantissa * (10 : ℚ) ^ expVal
    some (Json.num (if neg then -magnitude else magnitude), s4)

mutual

/-- Parse one JSON value (fuel-based recursion; every recursive step
consumes input, so `|s| + 1` fuel always suffices). -/
def parseJsonValue : Nat → Str → Option (Json × Str)
  | 0, _ => none
  | fuel + 1, s =>
    match skipJsonWs s with
    | [] => none
    | c :: cs =>
      if c = 'n' then (eatLit "ull".toList cs).map fun r => (Json.null, r)
      else if c = 't' then (eatLit "rue".toList cs).map fun r => (Json.bool true, r)
      else if c = 'f' then (eatLit "alse".toList cs).map fun r => (Json.bool false, r)
      else if c = '\x22' then (parseJsonStringBody cs).map fun pr => (Json.str pr.1, pr.2)
      else if c = '[' then
        match skipJsonWs cs with
        | ']' :: r => some (Json.arr [], r)
        | s2 => parseJsonArrItems fuel s2 []
      else if c = '\x7b' then
        match skipJsonWs cs with
        | '\x7d' :: r => some (Json.obj [], r)
        | s2 => parseJsonObjItems fuel s2 []
      else parseJsonNumber (c :: cs)

/-- Items of a non-empty JSON array, after `[`. -/
def parseJsonArrItems : Nat → Str → List Json → Option (Json × Str)
  | 0, _, _ => none
  | fuel + 1, s, acc =>
    (parseJsonValue fuel s).bind fun pr =>
      match skipJsonWs pr.2 with
      | ',' :: r => parseJsonArrItems fuel r (acc ++ [pr.1])
      | ']' :: r => some (Json.arr (acc ++ [pr.1]), r)
      | _ => none

/-- Members of a non-empty JSON object, after `\x7b`. -/
def parseJsonObjItems : Nat → Str → List (Str × Json) → Option (Json × Str)
  | 0, _, _ => none
  | fuel + 1, s, acc =>
    match skipJsonWs s with
    | '\x22' :: s1 =>
      (parseJsonStringBody s1).bind fun kpr =>
        match skipJsonWs kpr.2 with
        | ':' :: s2 =>
          (parseJsonValue fuel s2).bind fun vpr =>
            let acc2 := dictInsert acc kpr.1 vpr.1
            match skipJsonWs vpr.2 with
            | ',' :: r => parseJsonObjItems fuel r acc2
            | '\x7d' :: r => some (Json.obj acc2, r)
            | _ => none
        | _ => none
    | _ => none

end

/-- Embeds Python `json.loads`: parse one value, require only whitespace
after it; `none` where Python raises `json.JSONDecodeError`. -/
def jsonLoads (s : Str) : Option Json :=
  match parseJsonValue (s.length + 1) s with
  | some (j, rest) => if (skipJsonWs rest).isEmpty then some j else none
  | none => none

/-- Serialization of one JSON string character under `ensure_ascii=True`
(Python's default): short escapes for the common controls, `\uXXXX` for
other controls and for non-ASCII. -/
def dumpStrChar (c : Char) : Str :=
  if c = '\x22' then "\\\x22".toList
  else if c = '\\' then "\\\\".toList
  else if c = '\n' then "\\n".toList
  else if c = '\t' then "\\t".toList
  else if c = '\r' then "\\r".toList
  else if c = '\x08' then "\\b".toList
  else if c = '\x0c' then "\\f".toList
  else if c.toNat < 0x20 ∨ 0x7f ≤ c.toNat then
    "\\u".toList ++ (Nat.toDigits 16 c.toNat).reverse.takeD 4 '0' |>.reverse
  else [c]

/-- Serialize a JSON string with quotes. -/
def dumpJsonStr (s : Str) : Str :=
  '\x22' :: s.foldr (fun c acc => dumpStrChar c ++ acc) ['\x22']

/-- Decimal rendering of a rational: exact where the denominator divides a
power of ten (which covers every number these claims touch); Python's
shortest-round-trip float `repr` is approximated by a 17-fractional-digit
truncation otherwise. -/
def ratToStr (q : ℚ) : Str :=
  if q.den = 1 then intToStr q.num
  else
    let sign : Str := if q.num < 0 then ['-'] else []
    let aq : ℚ := |q|
    let kOpt := (List.range 18).find? (fun k => ((aq * (10 : ℚ) ^ k).den = 1 : Bool))
    let k := kOpt.getD 17
    let scaled : Nat := (aq * (10 : ℚ) ^ k).num.toNat
    let digits := natToStr scaled
    let digits := if digits.length ≤ k then List.replicate (k + 1 - digits.length) '0' ++ digits else digits
    sign ++ digits.take (digits.length - k) ++ '.' :: digits.drop (digits.length - k)

/-- Interleave `sep` between the elements of `xs` and concatenate. -/
def joinSep (sep : Str) : List Str → Str
  | [] => []
  | [x] => x
  | x :: y :: rest => x ++ sep ++ joinSep sep (y :: rest)

mutual

/-- Embeds `json.dumps(v, indent=2)` at indentation level `ind`. -/
def jsonDumpsAt : Nat → Json → Str
  | _, Json.null => "null".toList
  | _, Json.bool true => "true".toList
  | _, Json.bool false => "false".toList
  | _, Json.num q => ratToStr q
  | _, Json.str s => dumpJsonStr s
  | _, Json.arr [] => "[]".toList
  | ind, Json.arr (x :: xs) =>
    '[' :: '\n' ::
      joinSep (",\n".toList)
        ((jsonDumpsItems (ind + 2) (x :: xs)).map (fun it => List.replicate (ind + 2) ' ' ++ it)) ++
      '\n' :: List.replicate ind ' ' ++ "]".toList
  | _, Json.obj [] => "\x7b\x7d".toList
  | ind, Json.obj (kv :: kvs) =>
    '\x7b' :: '\n' ::
      joinSep (",\n".toList)
        ((jsonDumpsMembers (ind + 2) (kv :: kvs)).map (fun it => List.replicate (ind + 2) ' ' ++ it)) ++
      '\n' :: List.replicate ind ' ' ++ "\x7d".toList

/-- Serialized items of an array. -/
def jsonDumpsItems : Nat → List Json → List Str
  | _, [] => []
  | ind, x :: xs => jsonDumpsAt ind x :: jsonDumpsItems ind xs

/-- Serialized members of an object (`"key": value`). -/
def jsonDumpsMembers : Nat → List (Str × Json) → List Str
  | _, [] => []
  | ind, (k, v) :: kvs => (dumpJsonStr k ++ ": ".toList ++ jsonDumpsAt ind v) :: jsonDumpsMembers ind kvs

end

/-- Embeds `json.dumps(v, indent=2)`. -/
def jsonDumps2 (v : Json) : Str := jsonDumpsAt 0 v

/-! ## Embedded regex scanners for the extractor patterns

The `re.findall(pattern, text, re.DOTALL)` calls of the source use
patterns of the shape  prefix `(group)` suffix  with greedy `[^>]*` /
`\s*` and lazy `(.*?)` pieces.  They are embedded in continuation-passing
style: a greedy star consumes as much as possible and backtracks, a lazy
star consumes as little as possible and extends, exactly as the
backtracking engine does. -/

/-- Greedy `p*` followed by the continuation `k` (longest first, then
backtrack). -/
def greedyStar (p : Char → Bool) (k : Str → Option α) : Str → Option α
  | [] => k []
  | c :: cs =>
    if p c then
      match greedyStar p k cs with
      | some r => some r
      | none => k (c :: cs)
    else k (c :: cs)

/-- Lazy `(p*?)` capture followed by the continuation `k` (shortest first,
then extend); returns the captured run and `k`'s result. -/
def lazyStarCap (p : Char → Bool) (k : Str → Option α) : Str → Option (Str × α)
  | [] => (k []).map fun r => ([], r)
  | c :: cs =>
    match k (c :: cs) with
    | some r => some ([], r)
    | none =>
      if p c then (lazyStarCap p k cs).map fun pr => (c :: pr.1, pr.2)
      else none

/-- Greedy `(p*)` capture followed by the continuation `k`. -/
def greedyStarCap (p : Char → Bool) (k : Str → Option α) : Str → Option (Str × α)
  | [] => (k []).map fun r => ([], r)
  | c :: cs =>
    if p c then
      match greedyStarCap p k cs with
      | some pr => some (c :: pr.1, pr.2)
      | none => (k (c :: cs)).map fun r => ([], r)
    else (k (c :: cs)).map fun r => ([], r)

/-- Greedy `(p+)` capture followed by the continuation `k`. -/
def greedyPlusCap (p : Char → Bool) (k : Str → Option α) : Str → Option (Str × α)
  | [] => none
  | c :: cs =>
    if p c then (greedyStarCap p k cs).map fun pr => (c :: pr.1, pr.2) else none

/-- The class `["\']` of the document patterns. -/
def isQuote2 (c : Char) : Bool := c = '\x22' || c = '\x27'

/-- The class `[\'"\x60]` (single, double or backtick quote) of the
`JSON.parse` patterns. -/
def isQuote3 (c : Char) : Bool := c = '\x27' || c = '\x22' || c = '\x60'

/-- Not a `>` — the class `[^>]`. -/
def notGt (c : Char) : Bool := c ≠ '>'

/-- Match `<script[^>]*id=["\']__NEXT_DATA__["\'][^>]*>(.*?)</script>`
(DOTALL) at the head, returning (group 1, rest). -/
def matchNextDataAt (s : Str) : Option (Str × Str) :=
  (eatLit "<script".toList s).bind fun s1 =>
    greedyStar notGt (fun s2 =>
      (eatLit "id=".toList s2).bind fun s3 =>
        (eatClass isQuote2 s3).bind fun s4 =>
          (eatLit "__NEXT_DATA__".toList s4).bind fun s5 =>
            (eatClass isQuote2 s5).bind fun s6 =>
              greedyStar notGt (fun s7 =>
                (eatLit ">".toList s7).bind fun s8 =>
                  lazyStarCap (fun _ => true) (fun s9 => eatLit "</script>".toList s9) s8) s6) s1

/-- Match `<script[^>]*type=["\']application/json["\'][^>]*>(.*?)</script>`
(DOTALL) at the head, returning (group 1, rest). -/
def matchJsonScriptAt (s : Str) : Option (Str × Str) :=
  (eatLit "<script".toList s).bind fun s1 =>
    greedyStar notGt (fun s2 =>
      (eatLit "type=".toList s2).bind fun s3 =>
        (eatClass isQuote2 s3).bind fun s4 =>
          (eatLit "application/json".toList s4).bind fun s5 =>
            (eatClass isQuote2 s5).bind fun s6 =>
              greedyStar notGt (fun s7 =>
                (eatLit ">".toList s7).bind fun s8 =>
                  lazyStarCap (fun _ => true) (fun s9 => eatLit "</script>".toList s9) s8) s6) s1

/-- Consume an optional `;` (the trailing `;?`). -/
def optSemi : Str → Str
  | ';' :: r => r
  | s => s

/-- Match `window\.__DATA__\s*=\s*(\x7b.*?\x7d);?` (DOTALL) at the head,
returning (group 1, rest). -/
def matchWindowDataAt (s : Str) : Option (Str × Str) :=
  (eatLit "window.__DATA__".toList s).bind fun s1 =>
    greedyStar isPyWs (fun s2 =>
      (eatLit "=".toList s2).bind fun s3 =>
        greedyStar isPyWs (fun s4 =>
          (eatLit ['\x7b'] s4).bind fun s5 =>
            (lazyStarCap (fun _ => true) (fun s6 => eatLit ['\x7d'] s6) s5).map fun pr =>
              ('\x7b' :: pr.1 ++ ['\x7d'], optSemi pr.2)) s3) s1

/-- Match `JSON\.parse\s*\(\s*[\'"\x60](\x7b.*?\x7d)[\'"\x60]\s*\)` (DOTALL)
at the head, returning (group 1, rest). -/
def matchJsonParseQAt (s : Str) : Option (Str × Str) :=
  (eatLit "JSON.parse".toList s).bind fun s1 =>
    greedyStar isPyWs (fun s2 =>
      (eatLit "(".toList s2).bind fun s3 =>
        greedyStar isPyWs (fun s4 =>
          (eatClass isQuote3 s4).bind fun s5 =>
            (eatLit ['\x7b'] s5).bind fun s6 =>
              (lazyStarCap (fun _ => true) (fun t =>
                (eatLit ['\x7d'] t).bind fun t1 =>
                  (eatClass isQuote3 t1).bind fun t2 =>
                    greedyStar isPyWs (fun t3 => eatLit ")".toList t3) t2) s6).map fun pr =>
                ('\x7b' :: pr.1 ++ ['\x7d'], pr.2)) s3) s1

/-- Match `JSON\.parse\s*\(\s*\x60(\x7b.*?\x7d)\x60\s*\)` (DOTALL) at the
head, returning (group 1, rest). -/
def matchJsonParseBtAt (s : Str) : Option (Str × Str) :=
  (eatLit "JSON.parse".toList s).bind fun s1 =>
    greedyStar isPyWs (fun s2 =>
      (eatLit "(".toList s2).bind fun s3 =>
        greedyStar isPyWs (fun s4 =>
          (eatLit ['\x60'] s4).bind fun s5 =>
            (eatLit ['\x7b'] s5).bind fun s6 =>
              (lazyStarCap (fun _ => true) (fun t =>
                (eatLit ['\x7d'] t).bind fun t1 =>
                  (eatLit ['\x60'] t1).bind fun t2 =>
                    greedyStar isPyWs (fun t3 => eatLit ")".toList t3) t2) s6).map fun pr =>
                ('\x7b' :: pr.1 ++ ['\x7d'], pr.2)) s3) s1

/-- Match `<a[^>]+href=["\']([^"\']+)["\']` with `re.IGNORECASE` at the
head, returning (group 1, rest). -/
def matchHrefAt (s : Str) : Option (Str × Str) :=
  (eatLitCI "<a".toList s).bind fun s1 =>
    (eatClass notGt s1).bind fun s2 =>
      greedyStar notGt (fun s3 =>
        (eatLitCI "href=".toList s3).bind fun s4 =>
          (eatClass isQuote2 s4).bind fun s5 =>
            greedyPlusCap (fun c => !isQuote2 c) (fun s6 => eatClass isQuote2 s6) s5) s2

/-- `re.findall` scanning loop: try the matcher at every position from the
left, skipping over each (non-empty) match (fuel-based; the fuel
`|s| + 1` covers every scanning step). -/
def findallAux (m : Str → Option (Str × Str)) : Nat → Str → List Str
  | 0, _ => []
  | _ + 1, [] =>
    match m [] with
    | some (g, _) => [g]
    | none => []
  | fuel + 1, c :: cs =>
    match m (c :: cs) with
    | some (g, rest) => g :: findallAux m fuel rest
    | none => findallAux m fuel cs

/-- All (group 1) matches of `m` in `s`, leftmost first, non-overlapping. -/
def findallWith (m : Str → Option (Str × Str)) (s : Str) : List Str :=
  findallAux m (s.length + 1) s

/-! ## Data model -/

/-- One captured exchange, as appended by `_capture_network_requests_with_interaction`
(a `CapturedExchange` of the spec).  `response` is `none` where the Python
dict holds `None`. -/
structure Request where
  url : Str
  method : Str
  resource_type : Str
  response : Option Str
  headers : List (Str × Str)
  status : Option Int

/-- The `APIEndpoint` dataclass.  `_api_to_dict` converts it field-for-field
to a dict, so the dict form is not modelled separately. -/
structure APIEndpoint where
  url : Str
  method : Str
  priority_score : ℚ
  matched_fields : List Str
  sample_data : Json
  direct_use_example : Str

/-- Python truthiness of `req.get('response')`: a present, non-empty body. -/
def responseTruthy (r : Request) : Bool :=
  match r.response with
  | some (_ :: _) => true
  | _ => false

/-- Python `dict.get` on string keys. -/
def dictGet (d : List (Str × Str)) (k : Str) : Option Str :=
  match d with
  | [] => none
  | (k1, v) :: rest => if k1 = k then some v else dictGet rest k

/-- Embeds `_is_json_response`: the `content-type` header (falling back to
`Content-Type`, then `''`) contains `application/json` case-insensitively. -/
def is_json_response (r : Request) : Bool :=
  let ct := (dictGet r.headers "content-type".toList).getD
    ((dictGet r.headers "Content-Type".toList).getD [])
  strContains (lowerStr ct) "application/json".toList

/-- The `sample_data` wrapper: the parsed value if it is a dict, else
`\x7b "data": value \x7d`. -/
def wrapSample (j : Json) : Json :=
  match j with
  | Json.obj kvs => Json.obj kvs
  | v => Json.obj [("data".toList, v)]

/-- The comment-delimiter cleanup applied by `_find_embedded_json_in_html`
to each regex match: strip, then drop a surrounding `/* ... */` and strip
again. -/
def cleanDocMatch (m : Str) : Str :=
  let c := pyStrip m
  if strStartsWith c "/*".toList && strEndsWith c "*/".toList then
    pyStrip (pySliceDrop 2 2 c)
  else c

/-- The matches scanned by `_find_embedded_json_in_html`: the three
embedded-JSON patterns, in source order. -/
def docEmbeddedMatches (body : Str) : List Str :=
  findallWith matchNextDataAt body ++ findallWith matchJsonScriptAt body ++
    findallWith matchWindowDataAt body

/-- One match of the document extractor: clean, parse, sample-truncate,
score, and emit an endpoint when at least one keyword matched. -/
def processDocMatch (r : Request) (keywords : List Str) (data_description : Str)
    (m : Str) : List APIEndpoint :=
  match jsonLoads (cleanDocMatch m) with
  | none => []
  | some parsed =>
    let json_str := (jsonDumps2 parsed).take 500
    let mr := calculate_match_score json_str keywords data_description
    if mr.1.isEmpty then []
    else
      [{ url := r.url, method := r.method, priority_score := mr.2, matched_fields := mr.1,
         sample_data := wrapSample parsed,
         direct_use_example := "Data embedded in HTML: ".toList ++ r.url }]

/-- Embeds `_find_embedded_json_in_html`. -/
def find_embedded_json_in_html (r : Request) (keywords : List Str)
    (data_description : Str) : List APIEndpoint :=
  (docEmbeddedMatches (r.response.getD [])).foldl
    (fun acc m => acc ++ processDocMatch r keywords data_description m) []

/-- Embeds `_analyze_json_response_intelligently`: parse the whole body,
score the raw body text, and emit an endpoint when at least one keyword
matched; parse failure yields no candidate. -/
def analyze_json_response_intelligently (r : Request) (keywords : List Str)
    (data_description : Str) : List APIEndpoint :=
  match r.response with
  | none => []
  | some response_text =>
    match jsonLoads response_text with
    | none => []
    | some parsed =>
      let mr := calculate_match_score response_text keywords data_description
      if mr.1.isEmpty then []
      else
        [{ url := r.url, method := r.method, priority_score := mr.2, matched_fields := mr.1,
           sample_data := wrapSample parsed,
           direct_use_example :=
             "curl -X ".toList ++ r.method ++ " \x27".toList ++ r.url ++ "\x27".toList }]

/-- The matches scanned by `_analyze_js_for_json`: the two `JSON.parse`
patterns, in source order. -/
def jsParseMatches (body : Str) : List Str :=
  findallWith matchJsonParseQAt body ++ findallWith matchJsonParseBtAt body

/-- One match of the script extractor: strip, parse, sample-truncate,
score, and emit an endpoint when at least one keyword matched. -/
def processJsMatch (r : Request) (keywords : List Str) (data_description : Str)
    (m : Str) : List APIEndpoint :=
  match jsonLoads (pyStrip m) with
  | none => []
  | some parsed =>
    let json_str := (jsonDumps2 parsed).take 500
    let mr := calculate_match_score json_str keywords data_description
    if mr.1.isEmpty then []
    else
      [{ url := r.url, method := r.method, priority_score := mr.2, matched_fields := mr.1,
         sample_data := wrapSample parsed,
         direct_use_example := "JS file contains data: ".toList ++ r.url }]

/-- Embeds `_analyze_js_for_json`. -/
def analyze_js_for_json (r : Request) (keywords : List Str)
    (data_description : Str) : List APIEndpoint :=
  match r.response with
  | none => []
  | some response_text =>
    (jsParseMatches response_text).foldl
      (fun acc m => acc ++ processJsMatch r keywords data_description m) []

/-- Embeds `_analyze_text_response`: score the whole body as raw text and
emit an endpoint when at least one keyword matched (the source computes a
`content_type` local it never uses; it is omitted). -/
def analyze_text_response (r : Request) (keywords : List Str)
    (data_description : Str) : List APIEndpoint :=
  match r.response with
  | none => []
  | some response_text =>
    let mr := calculate_match_score response_text keywords data_description
    if mr.1.isEmpty then []
    else
      [{ url := r.url, method := r.method, priority_score := mr.2, matched_fields := mr.1,
         sample_data := Json.obj [("content_preview".toList, Json.str (response_text.take 200))],
         direct_use_example :=
           "curl -X ".toList ++ r.method ++ " \x27".toList ++ r.url ++ "\x27".toList }]

/-! ## `_analyze_requests_intelligently` -/

/-- Stable insertion step of the descending sort: an element is placed
before the first element whose score is not greater than its own, so an
earlier-discovered candidate stays before an equal-scored later one. -/
def insortDesc (x : APIEndpoint) : List APIEndpoint → List APIEndpoint
  | [] => [x]
  | y :: ys =>
    if y.priority_score ≤ x.priority_score then x :: y :: ys
    else y :: insortDesc x ys

/-- Embeds `api_endpoints.sort(key=lambda x: x.priority_score, reverse=True)`:
Python's Timsort is stable; a stable descending sort is embedded as
insertion sort with `insortDesc`. -/
def sortDesc : List APIEndpoint → List APIEndpoint
  | [] => []
  | x :: xs => insortDesc x (sortDesc xs)

/-- The Priority-2 loop of `_analyze_requests_intelligently` over XHR/Fetch
exchanges with truthy bodies: JSON responses are analyzed and collected,
and a pagination-shaped URL overwrites the detected pagination API
(last write wins). -/
def xhrScan (requests_data : List Request) (keywords : List Str)
    (data_description : Str) : List APIEndpoint × Option Str :=
  let xhr_requests := requests_data.filter
    (fun r => decide (r.resource_type = "xhr".toList ∨ r.resource_type = "fetch".toList) &&
      responseTruthy r)
  xhr_requests.foldl
    (fun acc r =>
      if responseTruthy r && is_json_response r then
        (acc.1 ++ analyze_json_response_intelligently r keywords data_description,
         if is_pagination_request r.url then some r.url else acc.2)
      else acc)
    ([], none)

/-- The concatenation, in strict priority order (Document, then XHR/Fetch,
then Script, then Other), of all extractor candidates for one exchange
batch — `api_endpoints` of the source just before its final sort. -/
def extractAllCandidates (requests_data : List Request) (keywords : List Str)
    (data_description : Str) : List APIEndpoint :=
  let html_requests := requests_data.filter
    (fun r => decide (r.resource_type = "document".toList))
  let doc := html_requests.foldl
    (fun acc r => acc ++ find_embedded_json_in_html r keywords data_description) []
  let js_requests := requests_data.filter
    (fun r => decide (r.resource_type = "script".toList) && responseTruthy r)
  let js := js_requests.foldl
    (fun acc r => acc ++ analyze_js_for_json r keywords data_description) []
  let other_requests := requests_data.filter
    (fun r =>
      decide (¬ (r.resource_type = "document".toList ∨ r.resource_type = "xhr".toList ∨
        r.resource_type = "fetch".toList ∨ r.resource_type = "script".toList)) &&
      responseTruthy r)
  let other := other_requests.foldl
    (fun acc r => acc ++ analyze_text_response r keywords data_description) []
  doc ++ (xhrScan requests_data keywords data_description).1 ++ js ++ other

/-- Embeds `_analyze_requests_intelligently`: all extractor candidates,
sorted descending by `priority_score` with Python's stable sort, paired
with the last pagination-shaped JSON XHR/Fetch URL. -/
def analyze_requests_intelligently (requests_data : List Request) (keywords : List Str)
    (data_description : Str) : List APIEndpoint × Option Str :=
  (sortDesc (extractAllCandidates requests_data keywords data_description),
   (xhrScan requests_data keywords data_description).2)

/-! ## `_extract_links_for_next_depth`

`urllib.parse.urlparse` / `urljoin` are Python standard-library
collaborators; they are embedded for the absolute-`http(s)`-URL and
relative-path cases this analyzer meets (RFC 3986 corner cases such as
rootless base paths are not exercised by any claim). -/

/-- The remainder of `u` after a leading `scheme:`, when `u` starts with a
syntactically valid scheme. -/
def afterSchemeAux : Str → Option Str
  | [] => none
  | c :: rest =>
    if c = ':' then some rest
    else if c.isAlphanum || c = '+' || c = '-' || c = '.' then afterSchemeAux rest
    else none

/-- The remainder of `u` after `scheme:`, if `u` has a scheme. -/
def afterScheme : Str → Option Str
  | [] => none
  | c :: rest => if c.isAlpha then afterSchemeAux rest else none

/-- Embeds `urllib.parse.urlparse(u).netloc`: the authority after `//`
(following an optional scheme), up to the next `/`, `?` or `#`. -/
def urlparseNetloc (u : Str) : Str :=
  let rest := (afterScheme u).getD u
  match rest with
  | '/' :: '/' :: r => r.takeWhile (fun c => !(c = '/' || c = '?' || c = '#'))
  | _ => []

/-- The `scheme:` prefix of `u` (with the colon), or `[]`. -/
def schemePart (u : Str) : Str :=
  match afterScheme u with
  | some _ => u.takeWhile (fun c => c ≠ ':') ++ [':']
  | none => []

/-- The path of an absolute URL `u`: after scheme and authority, up to `?`
or `#`. -/
def urlPathPart (u : Str) : Str :=
  let rest := (afterScheme u).getD u
  let rest := match rest with
    | '/' :: '/' :: r => r.dropWhile (fun c => !(c = '/' || c = '?' || c = '#'))
    | r => r
  rest.takeWhile (fun c => !(c = '?' || c = '#'))

/-- Split on `/`. -/
def splitSlash : Str → List Str
  | [] => [[]]
  | c :: cs =>
    let rest := splitSlash cs
    if c = '/' then [] :: rest
    else match rest with
      | seg :: segs => (c :: seg) :: segs
      | [] => [[c]]

/-- Resolution of `.` and `..` path segments, as `urljoin` performs it: a
`.` segment is dropped, a `..` segment pops the previous one, and a
trailing `.`/`..` leaves a trailing slash. -/
def resolveDots (segs : List Str) : List Str :=
  let step := fun (acc : List Str) (seg : Str) =>
    if seg = ".".toList then acc
    else if seg = "..".toList then acc.dropLast
    else acc ++ [seg]
  let out := segs.foldl step []
  match segs.getLast? with
  | some last => if last = ".".toList ∨ last = "..".toList then out ++ [[]] else out
  | none => out

/-- Join path segments with `/`. -/
def joinSlash (segs : List Str) : Str := joinSep ['/'] segs

/-- Embeds `urllib.parse.urljoin(base, href)` for the cases this program
produces: scheme-qualified hrefs, protocol-relative `//`, absolute paths,
fragment/query-only hrefs, and relative paths resolved against the base
path's directory with `.`/`..` handling. -/
def pyUrljoin (base href : Str) : Str :=
  if href.isEmpty then base
  else if (afterScheme href).isSome then href
  else if strStartsWith href "//".toList then schemePart base ++ href
  else
    let root := schemePart base ++ "//".toList ++ urlparseNetloc base
    if strStartsWith href "/".toList then
      root ++ joinSlash (resolveDots (splitSlash href))
    else if strStartsWith href "?".toList then
      (schemePart base ++ "//".toList ++ urlparseNetloc base ++ urlPathPart base) ++ href
    else if strStartsWith href "#".toList then
      (base.takeWhile (fun c => c ≠ '#')) ++ href
    else
      let basePath := urlPathPart base
      let dir :=
        if basePath.contains '/' then (basePath.reverse.dropWhile (fun c => c ≠ '/')).reverse
        else "/".toList
      root ++ joinSlash (resolveDots (splitSlash (dir ++ href)))

/-- The sensitive-path test of `_extract_links_for_next_depth`: the
lower-cased URL contains `/auth/`, `/login/` or `/admin/`. -/
def hasSensitivePath (u : Str) : Bool :=
  strContains (lowerStr u) "/auth/".toList ||
    strContains (lowerStr u) "/login/".toList ||
    strContains (lowerStr u) "/admin/".toList

/-- Python `set.add` on an insertion-ordered model of the set (CPython's
set iteration order is unspecified; only membership matters to any claim). -/
def setAdd (l : List Str) (x : Str) : List Str :=
  if x ∈ l then l else l ++ [x]

/-- Embeds `_extract_links_for_next_depth`: hrefs of document bodies,
resolved against the exchange URL, kept only when same-domain, not
pagination-shaped (unless `include_pagination`), and not on a sensitive
path. -/
def extract_links_for_next_depth (requests_data : List Request) (base_url : Str)
    (include_pagination : Bool) : List Str :=
  let base_domain := urlparseNetloc base_url
  let html_responses := requests_data.filter
    (fun r => decide (r.resource_type = "document".toList) && responseTruthy r)
  html_responses.foldl
    (fun links r =>
      (findallWith matchHrefAt (r.response.getD [])).foldl
        (fun links href =>
          let full_url := pyUrljoin r.url href
          if urlparseNetloc full_url = base_domain then
            if !include_pagination && is_pagination_request full_url then links
            else if hasSensitivePath full_url then links
            else setAdd links full_url
          else links)
        links)
    []

/-! ## The crawl controller -/

/-- The value Python's `and` chain stores in `requires_confirmation`:
either a genuine boolean (`False` from a falsy earlier operand) or the
`next_depth_links` list itself. -/
inductive PyBoolOrList where
  | bool : Bool → PyBoolOrList
  | list : List Str → PyBoolOrList
deriving DecidableEq

/-- Python truthiness of such a value. -/
def pyTruthy : PyBoolOrList → Bool
  | PyBoolOrList.bool b => b
  | PyBoolOrList.list l => !l.isEmpty

/-- Is the value an actual `bool`? -/
def PyBoolOrList.isBoolVal : PyBoolOrList → Bool
  | PyBoolOrList.bool _ => true
  | PyBoolOrList.list _ => false

/-- Python `a and b and c` with booleans `a`, `b` and a list `c`: the first
falsy operand, else `c`. -/
def pyAnd3 (a b : Bool) (c : List Str) : PyBoolOrList :=
  if a then (if b then PyBoolOrList.list c else PyBoolOrList.bool false)
  else PyBoolOrList.bool false

/-- The `next_actions` part of a result. -/
structure NextActions where
  requires_confirmation : PyBoolOrList
  available_depth_links : List Str
  pagination_api_detected : Option Str

/-- The result dictionary of the analysis entry point.
`fallback_html_selectors` is an opaque JSON value (produced by the
BeautifulSoup-based `_generate_fallback_selectors` collaborator on the
success path, or the fixed `\x7b"if_no_api": []\x7d` shape). -/
structure AnalysisResult where
  execution_summary : Str
  recommended_apis : List APIEndpoint
  fallback_html_selectors : Json
  next_actions : NextActions

/-- The mutable analyzer state of `WebAPICrawlerAnalyzer.__init__`
(`self.max_depth`, `self.confirm_each_depth`, `self.include_pagination`,
`self.crawled_urls`, `self.visited_domains` — the last is never used). -/
structure AnalyzerState where
  max_depth : Int
  confirm_each_depth : Bool
  include_pagination : Bool
  crawled_urls : List Str
  visited_domains : List Str

/-- The fresh state built by `WebAPICrawlerAnalyzer(max_depth, confirm_each_depth,
include_pagination)`. -/
def initState (max_depth : Int) (confirm_each_depth include_pagination : Bool) :
    AnalyzerState :=
  { max_depth := max_depth, confirm_each_depth := confirm_each_depth,
    include_pagination := include_pagination, crawled_urls := [], visited_domains := [] }

/-- The placeholder result returned when the depth guard fires:
`max depth reached or already crawled`. -/
def placeholderResult (max_depth : Int) : AnalysisResult :=
  { execution_summary :=
      "Reached max depth (".toList ++ intToStr max_depth ++ ") or already crawled".toList,
    recommended_apis := [],
    fallback_html_selectors := Json.obj [("if_no_api".toList, Json.arr [])],
    next_actions :=
      { requires_confirmation := PyBoolOrList.bool false,
        available_depth_links := [],
        pagination_api_detected := none } }

/-- A capture collector: Playwright's
`_capture_network_requests_with_interaction`, an external collaborator
taking the URL and the instructions and returning the captured exchanges
and the final HTML. -/
abbrev Capture := Str → Str → List Request × Str

/-- A fallback-selector generator: the BeautifulSoup-based
`_generate_fallback_selectors`, an external collaborator taking the HTML
and the data description. -/
abbrev FallbackGen := Str → Str → Json

/-- Embeds `_crawl_and_analyze_with_instructions`.  The depth guard returns
the placeholder without touching the state or the capture collector;
otherwise the URL is added to `crawled_urls`, the exchanges are captured
and analyzed, fallback selectors are generated only when no API was
recommended, next-depth links are extracted, and `requires_confirmation`
is Python's `and` chain over opting in, remaining depth, and the links. -/
def crawl_and_analyze_with_instructions (capture : Capture) (fallbackGen : FallbackGen)
    (st : AnalyzerState) (url instructions : Str) (keywords : List Str)
    (depth : Int) (data_description : Str) : AnalysisResult × AnalyzerState :=
  if depth ≥ st.max_depth ∨ url ∈ st.crawled_urls then
    (placeholderResult st.max_depth, st)
  else
    let st1 := { st with crawled_urls := setAdd st.crawled_urls url }
    let cap := capture url instructions
    let requests_data := cap.1
    let html_content := cap.2
    let analyzed := analyze_requests_intelligently requests_data keywords data_description
    let recommended_apis := analyzed.1
    let pagination_api := analyzed.2
    let fallback_selectors :=
      if recommended_apis.isEmpty then fallbackGen html_content data_description
      else Json.obj []
    let next_depth_links := extract_links_for_next_depth requests_data url st.include_pagination
    let requires_confirmation :=
      pyAnd3 st.confirm_each_depth (decide (depth + 1 < st.max_depth)) next_depth_links
    ({ execution_summary :=
         "Successfully executed interaction steps, captured ".toList ++
           natToStr requests_data.length ++ " network requests".toList,
       recommended_apis := recommended_apis,
       fallback_html_selectors := fallback_selectors,
       next_actions :=
         { requires_confirmation := requires_confirmation,
           available_depth_links := next_depth_links.take 10,
           pagination_api_detected := pagination_api } },
     st1)

/-- Embeds `WebAPICrawlerAnalyzer.analyze`: extract the URL (`ValueError`,
here `Except.error`, when there is none), extract the keywords, and run
the crawl at depth 0. -/
def analyze (capture : Capture) (fallbackGen : FallbackGen) (st : AnalyzerState)
    (instructions data_description : Str) :
    Except Str (AnalysisResult × AnalyzerState) :=
  match extract_url_from_instructions instructions with
  | none => Except.error "No URL found in instructions".toList
  | some url =>
    let keywords := extract_keywords data_description
    Except.ok (crawl_and_analyze_with_instructions capture fallbackGen st url instructions
      keywords 0 data_description)

/-- The error-shaped result of the `except` block of
`webapi_crawler_analyzer_skill`. -/
def errorResult (e : Str) : AnalysisResult :=
  { execution_summary := "Error during analysis: ".toList ++ e,
    recommended_apis := [],
    fallback_html_selectors := Json.obj [("if_no_api".toList, Json.arr [])],
    next_actions :=
      { requires_confirmation := PyBoolOrList.bool false,
        available_depth_links := [],
        pagination_api_detected := none } }

/-- Embeds `webapi_crawler_analyzer_skill`: build a fresh analyzer, run the
analysis, and convert any error into the fixed error-shaped result —
the boundary never raises. -/
def webapi_crawler_analyzer_skill (capture : Capture) (fallbackGen : FallbackGen)
    (instructions data_description : Str) (max_depth : Int)
    (confirm_each_depth include_pagination : Bool) : AnalysisResult :=
  match analyze capture fallbackGen (initState max_depth confirm_each_depth include_pagination)
      instructions data_description with
  | Except.ok pr => pr.1
  | Except.error e => errorResult e

/-- A capture collector returning no exchanges and empty HTML, for
concrete instantiations. -/
def captureNone : Capture := fun _ _ => ([], [])

/-- A fallback generator returning an empty object, for concrete
instantiations. -/
def fallbackNone : FallbackGen := fun _ _ => Json.obj []

/-- A document exchange whose embedded JSON block is malformed. -/
def reqDocBad : Request :=
  { url := "https://x.com/p".toList, method := "GET".toList,
    resource_type := "document".toList,
    response := some "<script type=\x22application/json\x22>oops</script>".toList,
    headers := [], status := some 200 }

/-- An XHR exchange whose whole JSON body is malformed. -/
def reqXhrBad : Request :=
  { url := "https://x.com/api".toList, method := "GET".toList,
    resource_type := "xhr".toList,
    response := some "\x7boops".toList,
    headers := [("content-type".toList, "application/json".toList)], status := some 200 }

/-- A script exchange whose `JSON.parse` string literal is malformed. -/
def reqJsBad : Request :=
  { url := "https://x.com/app.js".toList, method := "GET".toList,
    resource_type := "script".toList,
    response := some "JSON.parse(\x27\x7bbad\x7d\x27)".toList,
    headers := [], status := some 200 }

/-- A candidate with priority score 0.3 (the ranking example of the spec). -/
def sampleLow : APIEndpoint :=
  { url := "https://x.com/low".toList, method := "GET".toList, priority_score := 3/10,
    matched_fields := [], sample_data := Json.obj [], direct_use_example := [] }

/-- A candidate with priority score 0.9 (the ranking example of the spec). -/
def sampleHigh : APIEndpoint :=
  { url := "https://x.com/high".toList, method := "GET".toList, priority_score := 9/10,
    matched_fields := [], sample_data := Json.obj [], direct_use_example := [] }

/-- A candidate with priority score 0.6 (the ranking example of the spec). -/
def sampleMid : APIEndpoint :=
  { url := "https://x.com/mid".toList, method := "GET".toList, priority_score := 6/10,
    matched_fields := [], sample_data := Json.obj [], direct_use_example := [] }

/-! ## Helper lemmas -/

theorem strStartsWith_iff (h n : Str) : strStartsWith h n = true ↔ ∃ v, h = n ++ v := by
  induction n generalizing h with
  | nil => simp [strStartsWith]
  | cons d ds ih =>
    cases h with
    | nil => simp [strStartsWith]
    | cons c cs =>
      simp only [strStartsWith, Bool.and_eq_true, decide_eq_true_eq, ih, List.cons_append]
      constructor
      · rintro ⟨rfl, v, rfl⟩
        exact ⟨v, rfl⟩
      · rintro ⟨v, hv⟩
        cases hv
        exact ⟨rfl, v, rfl⟩

theorem strContains_iff (h n : Str) : strContains h n = true ↔ ∃ u v, h = u ++ n ++ v := by
  induction h with
  | nil =>
    simp only [strContains, strStartsWith_iff]
    constructor
    · rintro ⟨v, hv⟩
      exact ⟨[], v, by simpa using hv⟩
    · rintro ⟨u, v, huv⟩
      have hu : u = [] := by
        cases u with
        | nil => rfl
        | cons a as => simp at huv
      subst hu
      exact ⟨v, by simpa using huv⟩
  | cons c cs ih =>
    simp only [strContains, Bool.or_eq_true, strStartsWith_iff, ih]
    constructor
    · rintro (⟨v, hv⟩ | ⟨u, v, huv⟩)
      · exact ⟨[], v, by simpa using hv⟩
      · exact ⟨c :: u, v, by simp [huv]⟩
    · rintro ⟨u, v, huv⟩
      cases u with
      | nil => exact Or.inl ⟨v, by simpa using huv⟩
      | cons a as =>
        simp only [List.cons_append, List.cons.injEq] at huv
        exact Or.inr ⟨as, v, huv.2⟩

theorem foldl_filter_append {α : Type} (p : α → Bool) (l : List α) (acc : List α) :
    l.foldl (fun acc x => if p x then acc ++ [x] else acc) acc = acc ++ l.filter p := by
  induction l generalizing acc with
  | nil => simp
  | cons x xs ih =>
    by_cases hx : p x
    · simp [List.foldl_cons, hx, ih, List.filter_cons]
    · simp [List.foldl_cons, hx, ih, List.filter_cons]

theorem foldl_append_nil {α β : Type} (g : α → List β) (l : List α) (acc : List β)
    (h : ∀ x ∈ l, g x = []) :
    l.foldl (fun acc x => acc ++ g x) acc = acc := by
  induction l generalizing acc with
  | nil => simp
  | cons x xs ih =>
    have hx : g x = [] := h x (List.mem_cons_self x xs)
    simp only [List.foldl_cons, hx, List.append_nil]
    exact ih acc (fun y hy => h y (List.mem_cons_of_mem x hy))

theorem matched_eq_filter (content : Str) (keywords : List Str) (dd : Str) :
    (calculate_match_score content keywords dd).1 =
      keywords.filter (fun kw => strContains (lowerStr content) (lowerStr kw)) := by
  simp [calculate_match_score, foldl_filter_append]

theorem match_score_denom_pos (keywords : List Str) :
    (0 : ℚ) < ((max keywords.length 1 : ℕ) : ℚ) := by
  have : (1 : ℕ) ≤ max keywords.length 1 := le_max_right _ _
  exact_mod_cast Nat.lt_of_lt_of_le Nat.zero_lt_one this

theorem match_score_base_bounds (content : Str) (keywords : List Str) :
    0 ≤ min (((keywords.filter
          (fun kw => strContains (lowerStr content) (lowerStr kw))).length : ℚ) /
        ((max keywords.length 1 : ℕ) : ℚ)) 1 ∧
      min (((keywords.filter
          (fun kw => strContains (lowerStr content) (lowerStr kw))).length : ℚ) /
        ((max keywords.length 1 : ℕ) : ℚ)) 1 ≤ 1 := by
  constructor
  · exact le_min (div_nonneg (by positivity) (le_of_lt (match_score_denom_pos keywords)))
      (by norm_num)
  · exact min_le_right _ _

theorem match_score_spec_eq (content : Str) (keywords : List Str) (dd : Str) :
    (calculate_match_score content keywords dd).2 = specMatchScore content keywords := by
  have hm := matched_eq_filter content keywords dd
  have hb := match_score_base_bounds content keywords
  simp only [calculate_match_score, foldl_filter_append, List.nil_append, specMatchScore]
  rw [max_eq_right hb.1]

theorem match_score_bounds (content : Str) (keywords : List Str) (dd : Str) :
    0 ≤ (calculate_match_score content keywords dd).2 ∧
      (calculate_match_score content keywords dd).2 ≤ 1 := by
  have hb := match_score_base_bounds content keywords
  simp only [calculate_match_score, foldl_filter_append, List.nil_append]
  by_cases hbr : '\x7b' ∈ content ∧ '\x7d' ∈ content
  · simp only [if_pos hbr]
    refine ⟨le_min (by linarith [hb.1]) (by norm_num), min_le_right _ _⟩
  · simp only [if_neg hbr]
    exact hb

theorem match_score_zero_of_no_match (content : Str) (keywords : List Str) (dd : Str)
    (hm : keywords.filter (fun kw => strContains (lowerStr content) (lowerStr kw)) = [])
    (hbr : ¬ ('\x7b' ∈ content ∧ '\x7d' ∈ content)) :
    (calculate_match_score content keywords dd).2 = 0 := by
  simp only [calculate_match_score, foldl_filter_append, List.nil_append, hm, if_neg hbr]
  norm_num

/-! ## Claims about the Match Scorer -/

/-- C1: for every keyword list and surface, `_calculate_match_score`
returns exactly the keywords occurring as case-insensitive substrings of
the surface, in keyword order; its score is the spec's formula
(count / max(|K|,1) clamped to [0,1], +0.2 brace bonus clamped to 1.0);
and appending a `\x7b\x7d` pair to an otherwise-unscored surface (score 0,
and still no keyword match afterwards) raises the score by exactly 0.2,
capped at 1.0. -/
theorem claim_C1 (content : Str) (keywords : List Str) (dd : Str) :
    (calculate_match_score content keywords dd).1 =
      keywords.filter (fun kw => strContains (lowerStr content) (lowerStr kw))
    ∧ (∀ kw, kw ∈ (calculate_match_score content keywords dd).1 ↔
        kw ∈ keywords ∧ specKeywordMatches kw content)
    ∧ (calculate_match_score content keywords dd).2 = specMatchScore content keywords
    ∧ ((calculate_match_score content keywords dd).2 = 0 →
        (calculate_match_score (content ++ ['\x7b', '\x7d']) keywords dd).1 = [] →
        (calculate_match_score (content ++ ['\x7b', '\x7d']) keywords dd).2 =
            (calculate_match_score content keywords dd).2 + 0.2
          ∧ (calculate_match_score (content ++ ['\x7b', '\x7d']) keywords dd).2 ≤ 1) := by
  refine ⟨matched_eq_filter content keywords dd, ?_, match_score_spec_eq content keywords dd, ?_⟩
  · intro kw
    rw [matched_eq_filter, List.mem_filter, strContains_iff]
    exact Iff.rfl
  · intro h0 hmm
    have hmm2 : (calculate_match_score (content ++ ['\x7b', '\x7d']) keywords dd).1.length = 0 := by
      rw [hmm]; rfl
    rw [matched_eq_filter] at hmm2
    rw [h0]
    have hbr : '\x7b' ∈ content ++ ['\x7b', '\x7d'] ∧ '\x7d' ∈ content ++ ['\x7b', '\x7d'] := by
      constructor <;> simp
    simp only [calculate_match_score, foldl_filter_append, List.nil_append, if_pos hbr]
    rw [hmm2]
    norm_num

/-- Witness for C1 at the unscored surface `hello` and keyword list
`[abc]`. -/
theorem claim_C1_witness :
    (calculate_match_score ("hello".toList ++ ['\x7b', '\x7d']) ["abc".toList] "".toList).2 =
        (calculate_match_score "hello".toList ["abc".toList] "".toList).2 + 0.2
      ∧ (calculate_match_score ("hello".toList ++ ['\x7b', '\x7d']) ["abc".toList] "".toList).2 ≤ 1 :=
  (claim_C1 "hello".toList ["abc".toList] "".toList).2.2.2
    (match_score_zero_of_no_match "hello".toList ["abc".toList] "".toList
      (by decide) (by decide))
    (by decide)

/-- C2, counterexample to the claim as stated: for the keyword set
`[abc]` and the surface `\x7b\x7d` no keyword matches, yet the score is
the brace bonus 0.2, not 0 — "score = 0 iff no keyword matches" fails in
the right-to-left direction. -/
theorem claim_C2_counterexample :
    ¬ (((calculate_match_score ['\x7b', '\x7d'] ["abc".toList] "".toList).2 = 0) ↔
        (∀ kw ∈ ["abc".toList],
          strContains (lowerStr ['\x7b', '\x7d']) (lowerStr kw) = false)) := by
  intro h
  have hr : ∀ kw ∈ ["abc".toList],
      strContains (lowerStr ['\x7b', '\x7d']) (lowerStr kw) = false := by decide
  have h0 := h.mpr hr
  norm_num [calculate_match_score, strContains, strStartsWith, lowerStr] at h0

/-- C2, amended: for every non-empty keyword set the score lies in [0,1];
the score is 0 iff no keyword matches AND the surface does not carry the
brace bonus (the bonus alone already yields 0.2 for a match-free
surface). -/
theorem claim_C2_amended (content : Str) (keywords : List Str) (dd : Str)
    (_hne : keywords ≠ []) :
    0 ≤ (calculate_match_score content keywords dd).2
    ∧ (calculate_match_score content keywords dd).2 ≤ 1
    ∧ ((calculate_match_score content keywords dd).2 = 0 ↔
        ((∀ kw ∈ keywords, ¬ specKeywordMatches kw content) ∧
          ¬ ('\x7b' ∈ content ∧ '\x7d' ∈ content))) := by
  obtain ⟨hlo, hhi⟩ := match_score_bounds content keywords dd
  refine ⟨hlo, hhi, ?_⟩
  have hb := match_score_base_bounds content keywords
  simp only [calculate_match_score, foldl_filter_append, List.nil_append]
  by_cases hbr : '\x7b' ∈ content ∧ '\x7d' ∈ content
  · simp only [if_pos hbr]
    constructor
    · intro h0
      exfalso
      have : (0.2 : ℚ) ≤ min (min (((keywords.filter
          (fun kw => strContains (lowerStr content) (lowerStr kw))).length : ℚ) /
            ((max keywords.length 1 : ℕ) : ℚ)) 1 + 0.2) 1 :=
        le_min (by linarith [hb.1]) (by norm_num)
      rw [h0] at this
      norm_num at this
    · rintro ⟨-, hnb⟩
      exact absurd hbr hnb
  · simp only [if_neg hbr]
    have hd := match_score_denom_pos keywords
    constructor
    · intro h0
      refine ⟨?_, hbr⟩
      rcases min_eq_iff.mp h0 with ⟨hq, -⟩ | ⟨h1, -⟩
      · have hlen : ((keywords.filter
            (fun kw => strContains (lowerStr content) (lowerStr kw))).length : ℚ) = 0 := by
          rcases div_eq_zero_iff.mp hq with h | h
          · exact h
          · exact absurd h (ne_of_gt hd)
        have hnil : (keywords.filter
            (fun kw => strContains (lowerStr content) (lowerStr kw))) = [] :=
          List.length_eq_zero.mp (Nat.cast_eq_zero.mp hlen)
        intro kw hkw hspec
        have hfalse := List.filter_eq_nil_iff.mp hnil kw hkw
        rw [strContains_iff] at hfalse
        exact hfalse hspec
      · norm_num at h1
    · rintro ⟨hnomatch, -⟩
      have hnil : (keywords.filter
          (fun kw => strContains (lowerStr content) (lowerStr kw))) = [] := by
        apply List.filter_eq_nil_iff.mpr
        intro kw hkw
        rw [strContains_iff]
        exact hnomatch kw hkw
      rw [hnil]
      simp

/-- Witness for C2 (amended) at the keyword set `[abc]` and surface
`xxabcyy`. -/
theorem claim_C2_witness :
    0 ≤ (calculate_match_score "xxabcyy".toList ["abc".toList] "".toList).2
    ∧ (calculate_match_score "xxabcyy".toList ["abc".toList] "".toList).2 ≤ 1
    ∧ ((calculate_match_score "xxabcyy".toList ["abc".toList] "".toList).2 = 0 ↔
        ((∀ kw ∈ ["abc".toList], ¬ specKeywordMatches kw "xxabcyy".toList) ∧
          ¬ ('\x7b' ∈ "xxabcyy".toList ∧ '\x7d' ∈ "xxabcyy".toList))) :=
  claim_C2_amended "xxabcyy".toList ["abc".toList] "".toList (by decide)

/-! ## Sorting lemmas -/

theorem mem_insortDesc (x y : APIEndpoint) (l : List APIEndpoint) :
    y ∈ insortDesc x l ↔ y = x ∨ y ∈ l := by
  induction l with
  | nil => simp [insortDesc]
  | cons z zs ih =>
    by_cases hz : z.priority_score ≤ x.priority_score
    · simp [insortDesc, hz]
    · simp only [insortDesc, if_neg hz, List.mem_cons, ih]
      tauto

theorem insortDesc_pairwise (x : APIEndpoint) (l : List APIEndpoint)
    (h : l.Pairwise (fun a b => b.priority_score ≤ a.priority_score)) :
    (insortDesc x l).Pairwise (fun a b => b.priority_score ≤ a.priority_score) := by
  induction l with
  | nil => simp [insortDesc]
  | cons z zs ih =>
    rcases List.pairwise_cons.mp h with ⟨hz, hzs⟩
    by_cases hle : z.priority_score ≤ x.priority_score
    · rw [insortDesc, if_pos hle]
      refine List.pairwise_cons.mpr ⟨?_, h⟩
      intro w hw
      rcases List.mem_cons.mp hw with rfl | hw2
      · exact hle
      · exact le_trans (hz w hw2) hle
    · rw [insortDesc, if_neg hle]
      refine List.pairwise_cons.mpr ⟨?_, ih hzs⟩
      intro w hw
      rcases (mem_insortDesc x w zs).mp hw with rfl | hw2
      · exact le_of_lt (lt_of_not_le hle)
      · exact hz w hw2

theorem sortDesc_pairwise (l : List APIEndpoint) :
    (sortDesc l).Pairwise (fun a b => b.priority_score ≤ a.priority_score) := by
  induction l with
  | nil => simp [sortDesc]
  | cons x xs ih => exact insortDesc_pairwise x (sortDesc xs) ih

theorem insortDesc_filter_score (x : APIEndpoint) (l : List APIEndpoint) (q : ℚ) :
    (insortDesc x l).filter (fun e => decide (e.priority_score = q)) =
      if x.priority_score = q then x :: l.filter (fun e => decide (e.priority_score = q))
      else l.filter (fun e => decide (e.priority_score = q)) := by
  induction l with
  | nil =>
    by_cases hx : x.priority_score = q <;> simp [insortDesc, List.filter, hx]
  | cons z zs ih =>
    by_cases hle : z.priority_score ≤ x.priority_score
    · rw [insortDesc, if_pos hle]
      by_cases hx : x.priority_score = q <;> simp [List.filter_cons, hx]
    · rw [insortDesc, if_neg hle]
      have hlt : x.priority_score < z.priority_score := lt_of_not_le hle
      by_cases hx : x.priority_score = q
      · have hz : ¬ z.priority_score = q := by
          intro hzq
          rw [hx] at hlt
          rw [hzq] at hlt
          exact lt_irrefl q hlt
        simp [List.filter_cons, hz, ih, hx]
      · by_cases hz : z.priority_score = q <;> simp [List.filter_cons, hz, ih, hx]

theorem sortDesc_filter_score (l : List APIEndpoint) (q : ℚ) :
    (sortDesc l).filter (fun e => decide (e.priority_score = q)) =
      l.filter (fun e => decide (e.priority_score = q)) := by
  induction l with
  | nil => rfl
  | cons x xs ih =>
    rw [sortDesc, insortDesc_filter_score]
    by_cases hx : x.priority_score = q <;> simp [List.filter_cons, hx, ih]

theorem insortDesc_perm (x : APIEndpoint) (l : List APIEndpoint) :
    (insortDesc x l).Perm (x :: l) := by
  induction l with
  | nil => simp [insortDesc]
  | cons z zs ih =>
    by_cases hle : z.priority_score ≤ x.priority_score
    · rw [insortDesc, if_pos hle]
    · rw [insortDesc, if_neg hle]
      exact (List.Perm.cons z ih).trans (List.Perm.swap x z zs)

theorem sortDesc_perm (l : List APIEndpoint) : (sortDesc l).Perm l := by
  induction l with
  | nil => simp [sortDesc]
  | cons x xs ih =>
    exact ((insortDesc_perm x (sortDesc xs)).trans (List.Perm.cons x ih))

/-! ## Claim about the Endpoint Ranker -/

/-- C3: the ranked result of `_analyze_requests_intelligently` is the
concatenation of all extractor candidates (Document, XHR/Fetch, Script,
Other, in that order) sorted stably in descending `priority_score`
order: the output is sorted, equal-score candidates keep their discovery
order (the filter at every score is unchanged), the output is a
permutation of the concatenation, and candidates scored
[0.3, 0.9, 0.6] come out ordered [0.9, 0.6, 0.3]. -/
theorem claim_C3 (requests_data : List Request) (keywords : List Str) (dd : Str) :
    (analyze_requests_intelligently requests_data keywords dd).1 =
      sortDesc (extractAllCandidates requests_data keywords dd)
    ∧ ((analyze_requests_intelligently requests_data keywords dd).1).Pairwise
        (fun a b => b.priority_score ≤ a.priority_score)
    ∧ (∀ q : ℚ,
        ((analyze_requests_intelligently requests_data keywords dd).1).filter
            (fun e => decide (e.priority_score = q)) =
          (extractAllCandidates requests_data keywords dd).filter
            (fun e => decide (e.priority_score = q)))
    ∧ ((analyze_requests_intelligently requests_data keywords dd).1).Perm
        (extractAllCandidates requests_data keywords dd)
    ∧ sortDesc [sampleLow, sampleHigh, sampleMid] = [sampleHigh, sampleMid, sampleLow] := by
  refine ⟨rfl, sortDesc_pairwise _, fun q => sortDesc_filter_score _ q, sortDesc_perm _, ?_⟩
  have h1 : ¬ ((9:ℚ)/10 ≤ 3/10) := by norm_num
  have h2 : ¬ ((6:ℚ)/10 ≤ 3/10) := by norm_num
  have h3 : ((6:ℚ)/10 ≤ 9/10) := by norm_num
  simp [sortDesc, insortDesc, sampleLow, sampleHigh, sampleMid, h1, h2, h3]

/-! ## Pagination-pattern lemmas -/

theorem eatLit_some_iff (lit s r : Str) : eatLit lit s = some r ↔ s = lit ++ r := by
  induction lit generalizing s with
  | nil =>
    simp only [eatLit, Option.some.injEq, List.nil_append]
  | cons c cs ih =>
    cases s with
    | nil => simp [eatLit]
    | cons d ds =>
      by_cases hd : d = c
      · subst hd
        simp [eatLit, ih]
      · simp only [eatLit, if_neg hd]
        constructor
        · intro h
          exact Option.noConfusion h
        · intro h
          injection h with h1 h2
          exact absurd h1 hd

theorem litThenDigitAt_iff (lit s : Str) :
    litThenDigitAt lit s = true ↔ ∃ d b, s = lit ++ d :: b ∧ isPyDigit d = true := by
  constructor
  · intro h
    cases heq : eatLit lit s with
    | none => rw [litThenDigitAt, heq] at h; exact absurd h (by simp)
    | some r =>
      cases r with
      | nil => rw [litThenDigitAt, heq] at h; exact absurd h (by simp)
      | cons d b =>
        rw [litThenDigitAt, heq] at h
        exact ⟨d, b, (eatLit_some_iff lit s (d :: b)).mp heq, h⟩
  · rintro ⟨d, b, rfl, hd⟩
    have : eatLit lit (lit ++ d :: b) = some (d :: b) := (eatLit_some_iff lit _ _).mpr rfl
    rw [litThenDigitAt, this]
    exact hd

theorem searchPattern_iff (m : Str → Bool) (s : Str) :
    searchPattern m s = true ↔ ∃ t, t <:+ s ∧ m t = true := by
  induction s with
  | nil =>
    simp only [searchPattern]
    constructor
    · intro h
      exact ⟨[], List.suffix_refl [], h⟩
    · rintro ⟨t, ht, hm⟩
      rcases List.suffix_nil.mp ht with rfl
      exact hm
  | cons c cs ih =>
    simp only [searchPattern, Bool.or_eq_true, ih]
    constructor
    · rintro (h | ⟨t, ht, hm⟩)
      · exact ⟨c :: cs, List.suffix_refl _, h⟩
      · exact ⟨t, ht.trans (List.suffix_cons c cs), hm⟩
    · rintro ⟨t, ht, hm⟩
      rcases List.suffix_cons_iff.mp ht with rfl | ht2
      · exact Or.inl hm
      · exact Or.inr ⟨t, ht2, hm⟩

theorem takeWhile_append_of (p : Char → Bool) (ds : Str) (y : Char) (rest : Str)
    (hds : ∀ c ∈ ds, p c = true) (hy : p y = false) :
    (ds ++ y :: rest).takeWhile p = ds ∧ (ds ++ y :: rest).dropWhile p = y :: rest := by
  induction ds with
  | nil => simp [List.takeWhile_cons, List.dropWhile_cons, hy]
  | cons a as ih =>
    have ha : p a = true := hds a (List.mem_cons_self a as)
    have has : ∀ c ∈ as, p c = true := fun c hc => hds c (List.mem_cons_of_mem a hc)
    obtain ⟨h1, h2⟩ := ih has
    simp [List.takeWhile_cons, List.dropWhile_cons, ha, h1, h2]

theorem pagPat1At_iff (key : Str) (t : Str) :
    (match t with
      | c :: rest => (c = '?' || c = '&') && litThenDigitAt (key ++ ['=']) rest
      | [] => false) = true ↔
    ∃ c d b, t = c :: (key ++ '=' :: d :: b) ∧ (c = '?' ∨ c = '&') ∧ isPyDigit d = true := by
  cases t with
  | nil => simp
  | cons c rest =>
    simp only [Bool.and_eq_true, Bool.or_eq_true, decide_eq_true_eq, litThenDigitAt_iff]
    constructor
    · rintro ⟨hc, d, b, rfl, hd⟩
      exact ⟨c, d, b, by simp, hc, hd⟩
    · rintro ⟨c2, d, b, heq, hc, hd⟩
      rcases List.cons.injEq .. |>.mp heq with ⟨rfl, hrest⟩
      subst hrest
      exact ⟨hc, d, b, by simp, hd⟩

theorem pagPat4At_iff (t : Str) :
    pagPat4At t = true ↔
    ∃ ds b, t = '/' :: (ds ++ "/page".toList ++ b) ∧ ds ≠ [] ∧
      ∀ c ∈ ds, isPyDigit c = true := by
  cases t with
  | nil => simp [pagPat4At]
  | cons c rest =>
    simp only [pagPat4At, Bool.and_eq_true, decide_eq_true_eq, strStartsWith_iff]
    constructor
    · rintro ⟨⟨rfl, hne⟩, v, hv⟩
      refine ⟨rest.takeWhile isPyDigit, v, ?_, ?_, ?_⟩
      · rw [List.append_assoc, ← hv, List.takeWhile_append_dropWhile]
      · intro h
        rw [h] at hne
        simp at hne
      · intro ch hch
        exact List.mem_takeWhile_imp hch
    · rintro ⟨ds, b, heq, hne, hds⟩
      injection heq with h1 h2
      have hrest : rest = ds ++ '/' :: ("page".toList ++ b) := by
        rw [h2]
        simp
      obtain ⟨htake, hdrop⟩ :=
        takeWhile_append_of isPyDigit ds '/' ("page".toList ++ b) hds (by decide)
      subst h1
      rw [hrest, htake, hdrop]
      refine ⟨⟨rfl, ?_⟩, b, by simp⟩
      cases ds with
      | nil => exact absurd rfl hne
      | cons a as => rfl

theorem pagPat1At_eq (t : Str) :
    pagPat1At t = (match t with
      | c :: rest => (c = '?' || c = '&') && litThenDigitAt ("page".toList ++ ['=']) rest
      | [] => false) := by
  cases t <;> rfl

theorem pagPat2At_eq (t : Str) :
    pagPat2At t = (match t with
      | c :: rest => (c = '?' || c = '&') && litThenDigitAt ("p".toList ++ ['=']) rest
      | [] => false) := by
  cases t <;> rfl

theorem searchPagQuery_iff (url : Str) :
    searchPattern pagPat1At (lowerStr url) = true ↔ specPagQueryParam "page".toList url := by
  rw [searchPattern_iff]
  constructor
  · rintro ⟨t, ⟨a, ha⟩, hm⟩
    rw [pagPat1At_eq] at hm
    obtain ⟨c, d, b, rfl, hc, hd⟩ := (pagPat1At_iff "page".toList t).mp hm
    exact ⟨a, c, d, b, by rw [← ha], hc, hd⟩
  · rintro ⟨a, c, d, b, heq, hc, hd⟩
    refine ⟨c :: ("page".toList ++ '=' :: d :: b), ⟨a, heq.symm⟩, ?_⟩
    rw [pagPat1At_eq]
    exact (pagPat1At_iff "page".toList _).mpr ⟨c, d, b, rfl, hc, hd⟩

theorem searchPagQueryP_iff (url : Str) :
    searchPattern pagPat2At (lowerStr url) = true ↔ specPagQueryParam "p".toList url := by
  rw [searchPattern_iff]
  constructor
  · rintro ⟨t, ⟨a, ha⟩, hm⟩
    rw [pagPat2At_eq] at hm
    obtain ⟨c, d, b, rfl, hc, hd⟩ := (pagPat1At_iff "p".toList t).mp hm
    exact ⟨a, c, d, b, by rw [← ha], hc, hd⟩
  · rintro ⟨a, c, d, b, heq, hc, hd⟩
    refine ⟨c :: ("p".toList ++ '=' :: d :: b), ⟨a, heq.symm⟩, ?_⟩
    rw [pagPat2At_eq]
    exact (pagPat1At_iff "p".toList _).mpr ⟨c, d, b, rfl, hc, hd⟩

theorem searchPagPath_iff (url : Str) :
    searchPattern pagPat3At (lowerStr url) = true ↔ specPagPathPage url := by
  rw [searchPattern_iff]
  constructor
  · rintro ⟨t, ⟨a, ha⟩, hm⟩
    obtain ⟨d, b, rfl, hd⟩ := (litThenDigitAt_iff "/page/".toList t).mp hm
    exact ⟨a, d, b, by rw [← ha, List.append_assoc], hd⟩
  · rintro ⟨a, d, b, heq, hd⟩
    refine ⟨"/page/".toList ++ d :: b, ⟨a, ?_⟩, ?_⟩
    · rw [heq, ← List.append_assoc]
    · exact (litThenDigitAt_iff "/page/".toList _).mpr ⟨d, b, rfl, hd⟩

theorem searchPagNum_iff (url : Str) :
    searchPattern pagPat4At (lowerStr url) = true ↔ specPagNumPage url := by
  rw [searchPattern_iff]
  constructor
  · rintro ⟨t, ⟨a, ha⟩, hm⟩
    obtain ⟨ds, b, rfl, hne, hds⟩ := (pagPat4At_iff t).mp hm
    exact ⟨a, ds, b, by rw [← ha], hne, hds⟩
  · rintro ⟨a, ds, b, heq, hne, hds⟩
    refine ⟨'/' :: (ds ++ "/page".toList ++ b), ⟨a, ?_⟩, ?_⟩
    · rw [← heq]
    · exact (pagPat4At_iff _).mpr ⟨ds, b, rfl, hne, hds⟩

/-! ## Claim about pagination detection -/

/-- C4: `_is_pagination_request` is true on the four example URLs and
false on `https://x.com/list?foo=page`, and in general it holds exactly
when the (lower-cased) URL contains a `page=<digits>` or `p=<digits>`
query parameter or a `/page/<digits>` or `/<digits>/page` path segment. -/
theorem claim_C4 :
    is_pagination_request "https://x.com/list?page=2".toList = true
    ∧ is_pagination_request "https://x.com/list?p=3".toList = true
    ∧ is_pagination_request "https://x.com/page/5".toList = true
    ∧ is_pagination_request "https://x.com/5/page".toList = true
    ∧ is_pagination_request "https://x.com/list?foo=page".toList = false
    ∧ ∀ url : Str, is_pagination_request url = true ↔ specPagination url := by
  refine ⟨by decide, by decide, by decide, by decide, by decide, ?_⟩
  intro url
  simp only [is_pagination_request, Bool.or_eq_true, searchPagQuery_iff, searchPagQueryP_iff,
    searchPagPath_iff, searchPagNum_iff, specPagination]
  tauto

/-! ## Claim about extractor error handling -/

/-- C5: for an exchange whose structured-data content is malformed, each
candidate extractor returns the empty candidate list: the Document
extractor when every embedded block fails to parse, the XHR/Fetch
extractor when the body fails to parse, and the Script extractor when
every `JSON.parse` literal fails to parse.  (In this embedding the
extractors are total functions, mirroring the source's `try/except
json.JSONDecodeError` which lets no exception escape.) -/
theorem claim_C5 (r : Request) (keywords : List Str) (dd : Str) :
    ((∀ m ∈ docEmbeddedMatches (r.response.getD []),
        (jsonLoads (cleanDocMatch m)).isNone = true) →
      find_embedded_json_in_html r keywords dd = [])
    ∧ (∀ b, r.response = some b → (jsonLoads b).isNone = true →
        analyze_json_response_intelligently r keywords dd = [])
    ∧ ((∀ m ∈ jsParseMatches (r.response.getD []),
        (jsonLoads (pyStrip m)).isNone = true) →
      analyze_js_for_json r keywords dd = []) := by
  refine ⟨?_, ?_, ?_⟩
  · intro h
    rw [find_embedded_json_in_html]
    apply foldl_append_nil
    intro m hm
    have hnone := h m hm
    rw [Option.isNone_iff_eq_none] at hnone
    simp [processDocMatch, hnone]
  · intro b hb hnone
    rw [Option.isNone_iff_eq_none] at hnone
    simp [analyze_json_response_intelligently, hb, hnone]
  · intro h
    cases hr : r.response with
    | none => simp [analyze_js_for_json, hr]
    | some body =>
      rw [hr] at h
      simp only [analyze_js_for_json, hr]
      apply foldl_append_nil
      intro m hm
      have hnone := h m (by simpa using hm)
      rw [Option.isNone_iff_eq_none] at hnone
      simp [processJsMatch, hnone]

/-- Witness for C5 at three concrete malformed exchanges. -/
theorem claim_C5_witness :
    find_embedded_json_in_html reqDocBad ["price".toList] "".toList = []
    ∧ analyze_json_response_intelligently reqXhrBad ["price".toList] "".toList = []
    ∧ analyze_js_for_json reqJsBad ["price".toList] "".toList = [] :=
  ⟨(claim_C5 reqDocBad ["price".toList] "".toList).1 (by decide),
   (claim_C5 reqXhrBad ["price".toList] "".toList).2.1 "\x7boops".toList rfl (by decide),
   (claim_C5 reqJsBad ["price".toList] "".toList).2.2 (by decide)⟩

/-! ## Claim about sensitive-path links -/

theorem foldl_all_of_step {α β : Type} (p : β → Bool) (step : List β → α → List β)
    (hstep : ∀ acc x, acc.all p = true → (step acc x).all p = true) :
    ∀ (xs : List α) (acc : List β), acc.all p = true → (xs.foldl step acc).all p = true := by
  intro xs
  induction xs with
  | nil => intro acc h; exact h
  | cons x xs ih =>
    intro acc h
    exact ih (step acc x) (hstep acc x h)

theorem setAdd_all (p : Str → Bool) (l : List Str) (x : Str)
    (hx : p x = true) (hl : l.all p = true) : (setAdd l x).all p = true := by
  rw [setAdd]
  by_cases hm : x ∈ l
  · rw [if_pos hm]; exact hl
  · rw [if_neg hm, List.all_append, hl]
    simp [hx]

theorem all_take (p : Str → Bool) (l : List Str) (n : Nat)
    (h : l.all p = true) : (l.take n).all p = true := by
  rw [List.all_eq_true] at h ⊢
  intro x hx
  exact h x (List.take_subset n l hx)

theorem extract_links_no_sensitive (requests_data : List Request) (base_url : Str)
    (include_pagination : Bool) :
    (extract_links_for_next_depth requests_data base_url include_pagination).all
      (fun l => !hasSensitivePath l) = true := by
  rw [extract_links_for_next_depth]
  apply foldl_all_of_step
  · intro acc r hacc
    apply foldl_all_of_step
    · intro acc2 href hacc2
      by_cases h1 : urlparseNetloc (pyUrljoin r.url href) = urlparseNetloc base_url
      · rw [if_pos h1]
        by_cases h2 : (!include_pagination && is_pagination_request (pyUrljoin r.url href)) = true
        · rw [if_pos h2]; exact hacc2
        · rw [if_neg h2]
          by_cases h3 : hasSensitivePath (pyUrljoin r.url href) = true
          · rw [if_pos h3]; exact hacc2
          · rw [if_neg h3]
            exact setAdd_all _ acc2 _ (by simp [Bool.eq_false_iff.mpr h3]) hacc2
      · rw [if_neg h1]; exact hacc2
    · exact hacc
  · rfl

/-- C9: no URL whose lower-cased form contains `/auth/`, `/login/` or
`/admin/` ever appears among the extracted next-depth links, for any
exchange batch and any `include_pagination` setting — and hence never in
a crawl result's `available_depth_links`. -/
theorem claim_C9 :
    (∀ (requests_data : List Request) (base_url : Str) (include_pagination : Bool),
      (extract_links_for_next_depth requests_data base_url include_pagination).all
        (fun l => !hasSensitivePath l) = true)
    ∧ (∀ (capture : Capture) (fallbackGen : FallbackGen) (st : AnalyzerState)
        (url instructions : Str) (keywords : List Str) (depth : Int) (dd : Str),
        ((crawl_and_analyze_with_instructions capture fallbackGen st url instructions
            keywords depth dd).1.next_actions.available_depth_links).all
          (fun l => !hasSensitivePath l) = true) := by
  refine ⟨extract_links_no_sensitive, ?_⟩
  intro capture fallbackGen st url instructions keywords depth dd
  by_cases hg : depth ≥ st.max_depth ∨ url ∈ st.crawled_urls
  · simp [crawl_and_analyze_with_instructions, hg, placeholderResult]
  · simp only [crawl_and_analyze_with_instructions, if_neg hg]
    exact all_take _ _ 10 (extract_links_no_sensitive _ _ _)

/-! ## Claims about the boundary and the crawl controller -/

/-- C6: the public entry point never raises: an analysis error — in this
embedding, instructions containing no URL — is converted into the fixed
error-shaped result whose `execution_summary` reports the failure and
whose other fields are empty (`requires_confirmation` False, no links,
null pagination, empty selectors). -/
theorem claim_C6 (capture : Capture) (fallbackGen : FallbackGen)
    (instructions dd : Str) (max_depth : Int) (ced ip : Bool)
    (h : extract_url_from_instructions instructions = none) :
    webapi_crawler_analyzer_skill capture fallbackGen instructions dd max_depth ced ip =
      errorResult "No URL found in instructions".toList
    ∧ (∀ e, (errorResult e).execution_summary = "Error during analysis: ".toList ++ e
        ∧ (errorResult e).recommended_apis = []
        ∧ (errorResult e).fallback_html_selectors = Json.obj [("if_no_api".toList, Json.arr [])]
        ∧ (errorResult e).next_actions.requires_confirmation = PyBoolOrList.bool false
        ∧ (errorResult e).next_actions.available_depth_links = []
        ∧ (errorResult e).next_actions.pagination_api_detected = none) := by
  constructor
  · simp [webapi_crawler_analyzer_skill, analyze, h]
  · intro e
    exact ⟨rfl, rfl, rfl, rfl, rfl, rfl⟩

/-- Witness for C6 at instructions containing no URL. -/
theorem claim_C6_witness :
    webapi_crawler_analyzer_skill captureNone fallbackNone "hello".toList "".toList 1 true
        false =
      errorResult "No URL found in instructions".toList :=
  (claim_C6 captureNone fallbackNone "hello".toList "".toList 1 true false (by decide)).1

/-- C7: the crawl step visits a URL at most once: when the depth has
reached `max_depth` or the URL is already in the visited set it returns
the placeholder result unchanged-state for every capture collector (so
the collector is never invoked), and otherwise the URL is added to the
visited set; the placeholder has empty APIs, `requires_confirmation`
False, no links and null pagination. -/
theorem claim_C7 (capture : Capture) (fallbackGen : FallbackGen) (st : AnalyzerState)
    (url instructions : Str) (keywords : List Str) (depth : Int) (dd : Str) :
    ((depth ≥ st.max_depth ∨ url ∈ st.crawled_urls) →
      crawl_and_analyze_with_instructions capture fallbackGen st url instructions keywords
          depth dd =
        (placeholderResult st.max_depth, st))
    ∧ (¬ (depth ≥ st.max_depth ∨ url ∈ st.crawled_urls) →
        (crawl_and_analyze_with_instructions capture fallbackGen st url instructions keywords
            depth dd).2.crawled_urls =
          st.crawled_urls ++ [url])
    ∧ (∀ md : Int, (placeholderResult md).recommended_apis = []
        ∧ (placeholderResult md).next_actions.requires_confirmation = PyBoolOrList.bool false
        ∧ (placeholderResult md).next_actions.available_depth_links = []
        ∧ (placeholderResult md).next_actions.pagination_api_detected = none) := by
  refine ⟨?_, ?_, fun md => ⟨rfl, rfl, rfl, rfl⟩⟩
  · intro hg
    simp [crawl_and_analyze_with_instructions, hg]
  · intro hg
    have hnm : url ∉ st.crawled_urls := fun hm => hg (Or.inr hm)
    rw [crawl_and_analyze_with_instructions, if_neg hg]
    simp [setAdd, hnm]

/-- Witness for C7: the guard fires on a fresh depth-0 state with
`max_depth` 0, and a fresh URL is recorded on a state with `max_depth` 2. -/
theorem claim_C7_witness :
    crawl_and_analyze_with_instructions captureNone fallbackNone (initState 0 true false)
        "https://x.com/a".toList "i".toList [] 0 "".toList =
      (placeholderResult 0, initState 0 true false)
    ∧ (crawl_and_analyze_with_instructions captureNone fallbackNone (initState 2 true false)
        "https://x.com/a".toList "i".toList [] 0 "".toList).2.crawled_urls =
      ["https://x.com/a".toList] :=
  ⟨(claim_C7 captureNone fallbackNone (initState 0 true false) "https://x.com/a".toList
      "i".toList [] 0 "".toList).1 (Or.inl (by decide)),
   (claim_C7 captureNone fallbackNone (initState 2 true false) "https://x.com/a".toList
      "i".toList [] 0 "".toList).2.1 (by decide)⟩

/-- C8, counterexample to the claim as stated: `requires_confirmation` is
not always a boolean — with `confirm_each_depth=True`, `max_depth=2` and
a depth-0 crawl, Python's `and` chain stores the link *list* (here the
empty list) in the field, not a `bool`. -/
theorem claim_C8_counterexample :
    (webapi_crawler_analyzer_skill captureNone fallbackNone "see https://x.com/a".toList
        "".toList 2 true false).next_actions.requires_confirmation = PyBoolOrList.list []
    ∧ ((webapi_crawler_analyzer_skill captureNone fallbackNone "see https://x.com/a".toList
        "".toList 2 true false).next_actions.requires_confirmation).isBoolVal = false := by
  decide

/-- C8, amended: `requires_confirmation` is Python's `and`-chain value —
the boolean `False` when the caller did not opt in or no depth remains,
and otherwise the next-depth link list itself; it is truthy exactly when
the caller opted into per-depth confirmation, more depth remains
(depth + 1 < max_depth), and next-depth links were found.  On the
depth-guard path it is the boolean `False`. -/
theorem claim_C8_amended (capture : Capture) (fallbackGen : FallbackGen) (st : AnalyzerState)
    (url instructions : Str) (keywords : List Str) (depth : Int) (dd : Str) :
    (¬ (depth ≥ st.max_depth ∨ url ∈ st.crawled_urls) →
      (crawl_and_analyze_with_instructions capture fallbackGen st url instructions keywords
          depth dd).1.next_actions.requires_confirmation =
        pyAnd3 st.confirm_each_depth (decide (depth + 1 < st.max_depth))
          (extract_links_for_next_depth (capture url instructions).1 url st.include_pagination)
      ∧ (pyTruthy ((crawl_and_analyze_with_instructions capture fallbackGen st url instructions
            keywords depth dd).1.next_actions.requires_confirmation) = true ↔
          (st.confirm_each_depth = true ∧ depth + 1 < st.max_depth ∧
            extract_links_for_next_depth (capture url instructions).1 url
              st.include_pagination ≠ [])))
    ∧ ((depth ≥ st.max_depth ∨ url ∈ st.crawled_urls) →
        (crawl_and_analyze_with_instructions capture fallbackGen st url instructions keywords
            depth dd).1.next_actions.requires_confirmation = PyBoolOrList.bool false) := by
  constructor
  · intro hg
    constructor
    · simp only [crawl_and_analyze_with_instructions, if_neg hg]
    · simp only [crawl_and_analyze_with_instructions, if_neg hg]
      rw [pyAnd3]
      generalize extract_links_for_next_depth (capture url instructions).1 url
        st.include_pagination = links
      by_cases hc : st.confirm_each_depth
      · rw [if_pos hc]
        by_cases hd : depth + 1 < st.max_depth
        · rw [if_pos (by simpa using hd)]
          constructor
          · intro h
            refine ⟨hc, hd, ?_⟩
            intro hnil
            rw [hnil] at h
            simp [pyTruthy] at h
          · rintro ⟨-, -, hne⟩
            cases hl : links with
            | nil => exact absurd hl hne
            | cons a as => rfl
        · rw [if_neg (by simpa using hd)]
          simp [pyTruthy, hd]
      · rw [if_neg hc]
        simp only [pyTruthy]
        constructor
        · intro h
          exact absurd h (by simp)
        · rintro ⟨hcc, -, -⟩
          exact absurd hcc hc
  · intro hg
    simp [crawl_and_analyze_with_instructions, hg, placeholderResult]

/-- Witness for C8 (amended) on the non-guard path at a fresh depth-0
state with `max_depth` 2 and an empty capture. -/
theorem claim_C8_witness :
    (crawl_and_analyze_with_instructions captureNone fallbackNone (initState 2 true false)
        "https://x.com/a".toList "i".toList [] 0 "".toList).1.next_actions.requires_confirmation =
      pyAnd3 true (decide ((0:Int) + 1 < 2))
        (extract_links_for_next_depth [] "https://x.com/a".toList false)
    ∧ (pyTruthy ((crawl_and_analyze_with_instructions captureNone fallbackNone
          (initState 2 true false) "https://x.com/a".toList "i".toList [] 0
          "".toList).1.next_actions.requires_confirmation) = true ↔
        (true = true ∧ (0:Int) + 1 < 2 ∧
          extract_links_for_next_depth [] "https://x.com/a".toList false ≠ [])) :=
  (claim_C8_amended captureNone fallbackNone (initState 2 true false) "https://x.com/a".toList
    "i".toList [] 0 "".toList).1 (by decide)

/-- C10: with `max_depth = 0`, `analyze` on any instructions that contain
a URL returns the max-depth placeholder immediately: for every capture
collector the result is the placeholder and the state is unchanged (the
seed URL is never visited), because the depth guard `0 ≥ 0` fires. -/
theorem claim_C10 (capture : Capture) (fallbackGen : FallbackGen)
    (instructions dd : Str) (ced ip : Bool) (u : Str)
    (h : extract_url_from_instructions instructions = some u) :
    analyze capture fallbackGen (initState 0 ced ip) instructions dd =
      Except.ok (placeholderResult 0, initState 0 ced ip) := by
  simp only [analyze, h]
  have hg : (0 : Int) ≥ (initState 0 ced ip).max_depth ∨
      u ∈ (initState 0 ced ip).crawled_urls := Or.inl (le_refl 0)
  rw [crawl_and_analyze_with_instructions, if_pos hg]
  rfl

/-- Witness for C10 at concrete instructions containing a URL. -/
theorem claim_C10_witness :
    analyze captureNone fallbackNone (initState 0 true false)
        "Open https://x.com/a now".toList "price".toList =
      Except.ok (placeholderResult 0, initState 0 true false) :=
  claim_C10 captureNone fallbackNone "Open https://x.com/a now".toList "price".toList true
    false "https://x.com/a".toList (by decide)
